import Mathlib

/-!
Verification of the training/evaluation engine of the maxrl_demo repository
(`src/engine.js`), shallowly embedded in Lean 4.

Conventions of the embedding:
* JavaScript numbers that the engine uses exactly (logits, rewards, learning
  rates, probabilities, random draws) are modelled as rationals `ℚ`; grid
  cells are `Nat` (0 = path, 1 = wall); positions are `Int × Int` pairs
  (row, column) because intermediate coordinates such as `row - 1` can be
  negative before a bounds check.
* `Math.exp` is abstracted as an explicit function parameter `e : ℚ → ℚ`
  threaded through every definition that the source feeds through `Math.exp`;
  every theorem below is universally quantified over `e`, so it covers the
  real exponential, while witnesses instantiate `e` with a computable map.
* `Math.random()` is modelled as an explicit stream `rng : Nat → ℚ` together
  with a cursor `k : Nat`; each definition consumes values in exactly the
  order the JavaScript calls `Math.random()` and returns the advanced cursor.
* Mutation of `policy.logits` (a `Float64Array`) is modelled by returning a
  new `Policy` whose `logits` is a function `Nat → ℚ` over flat indices.
-/

namespace MaxrlDemo

/-- Actions are numbered as in `engine.js`: 0 = UP, 1 = DOWN, 2 = LEFT, 3 = RIGHT. -/
def actionDeltas : List (Int × Int) := [(-1, 0), (1, 0), (0, -1), (0, 1)]

/-- A maze: a list of rows of cells, 0 = path, 1 = wall (`engine.js` grids). -/
abbrev Grid := List (List Nat)

/-- A position, as a (row, column) pair of integers. -/
abbrev Pos := Int × Int

/-- `grid.length` of the source. -/
def gridH (g : Grid) : Nat := g.length

/-- `grid[0].length` of the source. -/
def gridW (g : Grid) : Nat := (g.headD []).length

/-- Read `grid[r][c]`. Only used by the source behind a bounds check; out of
bounds the default 1 (wall) models the JavaScript `undefined !== 0`. -/
def cellAt (g : Grid) (r c : Int) : Nat := (g.getD r.toNat []).getD c.toNat 1

/-- The `GridWorld` class: a maze with a designated start and goal. -/
structure GridWorld where
  grid : Grid
  start : Pos
  goal : Pos

/-- `GridWorld.height`. -/
def GridWorld.height (env : GridWorld) : Nat := gridH env.grid

/-- `GridWorld.width`. -/
def GridWorld.width (env : GridWorld) : Nat := gridW env.grid

/-- `GridWorld.inBounds(row, col)`. -/
@[reducible] def GridWorld.inBounds (env : GridWorld) (r c : Int) : Prop :=
  0 ≤ r ∧ r < (env.height : Int) ∧ 0 ≤ c ∧ c < (env.width : Int)

/-- `GridWorld.isPath(row, col)`: in bounds and the cell is 0. -/
@[reducible] def GridWorld.isPath (env : GridWorld) (r c : Int) : Prop :=
  env.inBounds r c ∧ cellAt env.grid r c = 0

/-- `GridWorld.step(pos, action)`: move by the action's delta if the target
cell is a path cell, otherwise stay; report whether the new position is the
goal. -/
def GridWorld.step (env : GridWorld) (pos : Pos) (action : Nat) : Pos × Bool :=
  let dl := actionDeltas.getD action (0, 0)
  let nr := pos.1 + dl.1
  let nc := pos.2 + dl.2
  let newPos : Pos := if env.isPath nr nc then (nr, nc) else pos
  (newPos, newPos == env.goal)

/-- The `TabularSoftmaxPolicy` class with its fixed four actions: one logit
per flat index `(row * width + col) * 4 + action`. -/
structure Policy where
  height : Nat
  width : Nat
  logits : Nat → ℚ

/-- Read `this.logits[i]` at a signed index: the source only forms negative
indices for positions that never occur in the claims' scenarios; a negative
read models the JavaScript out-of-range access. -/
def logitAt (p : Policy) (i : Int) : ℚ := if 0 ≤ i then p.logits i.toNat else 0

/-- The flat base index `(row * this.width + col) * this.nActions` of a state. -/
def stateBase (p : Policy) (row col : Int) : Int := (row * p.width + col) * 4

/-- The `maxZ`/`maxVal` loop of `getProbs`/`clipLogits`: the maximum of the
four logits at a state. -/
def maxLogit (p : Policy) (base : Int) : ℚ :=
  max (max (max (logitAt p base) (logitAt p (base + 1))) (logitAt p (base + 2)))
    (logitAt p (base + 3))

/-- `getProbs(row, col)[a]`: softmax with max-subtraction, with `Math.exp`
abstracted as `e`. -/
def getProbs (e : ℚ → ℚ) (p : Policy) (row col : Int) (a : Nat) : ℚ :=
  let base := stateBase p row col
  let m := maxLogit p base
  let s := e (logitAt p base - m) + e (logitAt p (base + 1) - m) +
    e (logitAt p (base + 2) - m) + e (logitAt p (base + 3) - m)
  e (logitAt p (base + (a : Int)) - m) / s

/-- `sampleAction(row, col)`: cumulative-sum comparison against one uniform
draw `r`; falls through to the last action index 3. -/
def sampleAction (e : ℚ → ℚ) (p : Policy) (row col : Int) (r : ℚ) : Nat :=
  let p0 := getProbs e p row col 0
  let p1 := getProbs e p row col 1
  let p2 := getProbs e p row col 2
  if r < p0 then 0
  else if r < p0 + p1 then 1
  else if r < p0 + p1 + p2 then 2
  else 3

/-- `scoreFunction(row, col, action)[a]`: `-p(a|s)` plus 1 at the chosen
action. -/
def scoreFunction (e : ℚ → ℚ) (p : Policy) (row col : Int) (action a : Nat) : ℚ :=
  (if a = action then 1 else 0) - getProbs e p row col a

/-- The clamp of `clipLogits`: two sequential comparisons against
`MAX_LOGIT = 20`. -/
def clampQ (v : ℚ) : ℚ := if v < -20 then -20 else if v > 20 then 20 else v

/-- `clipLogits()`: for every state, subtract the state's maximum logit from
its four logits and clamp each into `[-20, 20]`. Flat index `i` belongs to
the state whose base index is `(i / 4) * 4`. -/
def clipLogits (p : Policy) : Policy :=
  { p with logits := fun i =>
      if i < p.height * p.width * 4 then
        clampQ (p.logits i - maxLogit p ((i / 4 * 4 : Nat) : Int))
      else p.logits i }

/-- One trajectory, as returned by `rollout`: the `(row, col, action)` list,
the success flag, and the list of positions visited. -/
structure Traj where
  stateActions : List (Int × Int × Nat)
  reachedGoal : Bool
  path : List Pos
  deriving DecidableEq

/-- The loop of `rollout`, recursing on the remaining step budget: stop with
success as soon as the position equals the goal, otherwise sample an action
(consuming `rng k`), step the environment, and continue. -/
def rolloutAux (e : ℚ → ℚ) (pol : Policy) (env : GridWorld) (rng : Nat → ℚ) :
    Pos → Nat → Nat → Traj × Nat
  | pos, 0, k => (⟨[], pos == env.goal, [pos]⟩, k)
  | pos, fuel + 1, k =>
    if pos == env.goal then (⟨[], true, [pos]⟩, k)
    else
      let a := sampleAction e pol pos.1 pos.2 (rng k)
      let pos2 := (env.step pos a).1
      let r := rolloutAux e pol env rng pos2 fuel (k + 1)
      (⟨(pos.1, pos.2, a) :: r.1.stateActions, r.1.reachedGoal, pos :: r.1.path⟩, r.2)

/-- `rollout(policy, env, start, maxSteps)`; the `start || env.start` fallback
of the source is modelled by an `Option` start. -/
def rollout (e : ℚ → ℚ) (pol : Policy) (env : GridWorld) (start? : Option Pos)
    (maxSteps : Nat) (rng : Nat → ℚ) (k : Nat) : Traj × Nat :=
  rolloutAux e pol env rng (start?.getD env.start) maxSteps k

/-- The loop body of `_chooseWeighted`: running cumulative sum over the
probability list, returning the current index on `r < cumulative`, and
`probs.length - 1` after falling through. -/
def chooseWeightedGo : List ℚ → ℚ → ℚ → Int → Int → Int
  | [], _, _, _, n => n - 1
  | q :: rest, r, cum, i, n =>
    if r < cum + q then i else chooseWeightedGo rest r (cum + q) (i + 1) n

/-- `_chooseWeighted(probs)` applied to one uniform draw `r`. -/
def chooseWeighted (probs : List ℚ) (r : ℚ) : Int :=
  chooseWeightedGo probs r 0 0 probs.length

/-- `starts[idx]` with a signed index: JavaScript yields `undefined` (hence
the `env.start` fallback inside `rollout`) off the ends of the array. -/
def listGetInt (l : List Pos) (i : Int) : Option Pos :=
  if 0 ≤ i then l.get? i.toNat else none

/-- The trajectory-sampling loop shared by `reinforceUpdate` and
`maxrlUpdate`: `N` times, draw a start index from `startProbs` (consuming one
random number) and roll out from `starts[idx]`. -/
def sampleTrajs (e : ℚ → ℚ) (pol : Policy) (env : GridWorld) (starts : List Pos)
    (startProbs : List ℚ) (maxSteps : Nat) (rng : Nat → ℚ) :
    Nat → Nat → List Traj × Nat
  | 0, k => ([], k)
  | n + 1, k =>
    let idx := chooseWeighted startProbs (rng k)
    let r := rollout e pol env (listGetInt starts idx) maxSteps rng (k + 1)
    let rest := sampleTrajs e pol env starts startProbs maxSteps rng n r.2
    (r.1 :: rest.1, rest.2)

/-- `rewards[i] = trajectories[i].reachedGoal ? 1.0 : 0.0`. -/
def reward (t : Traj) : ℚ := if t.reachedGoal then 1 else 0

/-- `K`, the number of successes in a batch, as the engine's floating sum of
the rewards. -/
def batchK (ts : List Traj) : ℚ := (ts.map reward).sum

/-- The inner accumulation loop of both updates: add
`coef * scoreFunction(row, col, action)[a]` into `grad[base + a]` for the
four actions of one visited state-action. -/
def accumSA (e : ℚ → ℚ) (pol : Policy) (coef : ℚ) (g : Nat → ℚ)
    (sa : Int × Int × Nat) : Nat → ℚ := fun j =>
  let base := (sa.1 * pol.width + sa.2.1) * 4
  if base ≤ (j : Int) ∧ (j : Int) < base + 4 then
    g j + coef * scoreFunction e pol sa.1 sa.2.1 sa.2.2 ((j : Int) - base).toNat
  else g j

/-- Accumulate one trajectory's state-action visits into the gradient. -/
def accumTraj (e : ℚ → ℚ) (pol : Policy) (coef : ℚ) (g : Nat → ℚ)
    (sas : List (Int × Int × Nat)) : Nat → ℚ :=
  sas.foldl (accumSA e pol coef) g

/-- The gradient of `reinforceUpdate`: per-trajectory coefficient
`(1 / N) * (reward_i - K / N)`. -/
def reinforceGrad (e : ℚ → ℚ) (pol : Policy) (N : Nat) (ts : List Traj) :
    Nat → ℚ :=
  let rHat := batchK ts / (N : ℚ)
  ts.foldl (fun g t => accumTraj e pol ((1 / (N : ℚ)) * (reward t - rHat)) g
    t.stateActions) (fun _ => 0)

/-- `reinforceUpdate(policy, env, starts, startProbs, N, lr, maxSteps)`:
sample the batch, accumulate the advantage-weighted gradient, apply
`logits += lr * gradient`, clip, and return `K`. -/
def reinforceUpdate (e : ℚ → ℚ) (pol : Policy) (env : GridWorld)
    (starts : List Pos) (startProbs : List ℚ) (N : Nat) (lr : ℚ)
    (maxSteps : Nat) (rng : Nat → ℚ) (k : Nat) : (Policy × ℚ) × Nat :=
  let s := sampleTrajs e pol env starts startProbs maxSteps rng N k
  let grad := reinforceGrad e pol N s.1
  let pol2 := clipLogits { pol with logits := fun i => pol.logits i + lr * grad i }
  ((pol2, batchK s.1), s.2)

/-- The gradient of `maxrlUpdate`: per-trajectory coefficient
`reward_i / K - 1 / N` (the self-normalized weight, with no `1 / N` factor in
front). -/
def maxrlGrad (e : ℚ → ℚ) (pol : Policy) (N : Nat) (ts : List Traj) :
    Nat → ℚ :=
  let K := batchK ts
  ts.foldl (fun g t => accumTraj e pol (reward t / K - 1 / (N : ℚ)) g
    t.stateActions) (fun _ => 0)

/-- `maxrlUpdate(policy, env, starts, startProbs, N, lr, maxSteps)`: like
`reinforceUpdate` but with the self-normalized weights, and skipping the
whole update (gradient, step and clip) when `K = 0`. -/
def maxrlUpdate (e : ℚ → ℚ) (pol : Policy) (env : GridWorld) (starts : List Pos)
    (startProbs : List ℚ) (N : Nat) (lr : ℚ) (maxSteps : Nat) (rng : Nat → ℚ)
    (k : Nat) : (Policy × ℚ) × Nat :=
  let s := sampleTrajs e pol env starts startProbs maxSteps rng N k
  let K := batchK s.1
  if 0 < K then
    let grad := maxrlGrad e pol N s.1
    ((clipLogits { pol with logits := fun i => pol.logits i + lr * grad i }, K), s.2)
  else ((pol, K), s.2)

/-- The evaluation loop of `evaluateFromStart`: count successful rollouts. -/
def evalAux (e : ℚ → ℚ) (pol : Policy) (env : GridWorld) (start : Pos)
    (maxSteps : Nat) (rng : Nat → ℚ) : Nat → Nat → Nat → Nat × Nat
  | 0, k, acc => (acc, k)
  | n + 1, k, acc =>
    let r := rollout e pol env (some start) maxSteps rng k
    evalAux e pol env start maxSteps rng n r.2
      (if r.1.reachedGoal then acc + 1 else acc)

/-- `evaluateFromStart(policy, env, start, nEval, maxSteps)`: the fraction of
`nEval` independent rollouts that reach the goal. -/
def evaluateFromStart (e : ℚ → ℚ) (pol : Policy) (env : GridWorld) (start : Pos)
    (nEval maxSteps : Nat) (rng : Nat → ℚ) (k : Nat) : ℚ × Nat :=
  let r := evalAux e pol env start maxSteps rng nEval k 0
  (((r.1 : ℚ)) / (nEval : ℚ), r.2)

/-- The total contribution of one visited state-action, weighted by `w`, to
gradient slot `j`: nonzero only on the four slots of the visited state.
Used to state the accumulated gradient as a sum over visits. -/
def gradContrib (e : ℚ → ℚ) (pol : Policy) (w : ℚ) (sa : Int × Int × Nat)
    (j : Nat) : ℚ :=
  if (sa.1 * pol.width + sa.2.1) * 4 ≤ (j : Int) ∧
      (j : Int) < (sa.1 * pol.width + sa.2.1) * 4 + 4 then
    w * scoreFunction e pol sa.1 sa.2.1 sa.2.2
      ((j : Int) - (sa.1 * pol.width + sa.2.1) * 4).toNat
  else 0

/-- The gradient `maxrlUpdate` accumulates, written as a double sum over the
batch's trajectories and their visits, with per-trajectory weight
`reward_i / K - 1 / N`. -/
def maxrlGradSum (e : ℚ → ℚ) (pol : Policy) (N : Nat) (ts : List Traj)
    (j : Nat) : ℚ :=
  (ts.map fun t => (t.stateActions.map fun sa =>
    gradContrib e pol (reward t / batchK ts - 1 / (N : ℚ)) sa j).sum).sum

/-- Modelled from the claim's words: the gradient that C1 describes, reading
the §4.4 accumulation with `w_i` substituted for `A_i` so that each visit
adds `(1 / N) * w_i * scoreFunction(state, action)` — that is, with an extra
`1 / N` factor in front of the self-normalized weight. -/
def maxrlGradClaimed (e : ℚ → ℚ) (pol : Policy) (N : Nat) (ts : List Traj) :
    Nat → ℚ :=
  let K := batchK ts
  ts.foldl (fun g t => accumTraj e pol
    ((1 / (N : ℚ)) * (reward t / K - 1 / (N : ℚ))) g t.stateActions) (fun _ => 0)

/-- Modelled from the claim's words: `maxrlUpdate` as C1 states it, using
`maxrlGradClaimed` in place of the engine's accumulated gradient. -/
def maxrlUpdateClaimed (e : ℚ → ℚ) (pol : Policy) (env : GridWorld)
    (starts : List Pos) (startProbs : List ℚ) (N : Nat) (lr : ℚ)
    (maxSteps : Nat) (rng : Nat → ℚ) (k : Nat) : (Policy × ℚ) × Nat :=
  let s := sampleTrajs e pol env starts startProbs maxSteps rng N k
  let K := batchK s.1
  if 0 < K then
    let grad := maxrlGradClaimed e pol N s.1
    ((clipLogits { pol with logits := fun i => pol.logits i + lr * grad i }, K), s.2)
  else ((pol, K), s.2)

/-- The mutable search state of `bfsShortestPath`: the not-yet-dequeued tail
of the queue (entries carry their distance), the `visited` array, and the
`parent` array (initialised to `[-1, -1]`). -/
structure BfsSt where
  queue : List (Pos × Nat)
  vis : Pos → Bool
  par : Pos → Pos

/-- The neighbor-expansion body of the BFS loop for one direction: if the
neighbor is in bounds, a path cell and unvisited, mark it, record its parent,
and append it to the queue with distance `d + 1`. -/
def bfsRelax (g : Grid) (p : Pos) (d : Nat) (st : BfsSt) (dl : Int × Int) :
    BfsSt :=
  let n : Pos := (p.1 + dl.1, p.2 + dl.2)
  if 0 ≤ n.1 ∧ n.1 < (gridH g : Int) ∧ 0 ≤ n.2 ∧ n.2 < (gridW g : Int) ∧
      cellAt g n.1 n.2 = 0 ∧ st.vis n = false then
    { queue := st.queue ++ [(n, d + 1)],
      vis := fun z => if z = n then true else st.vis z,
      par := fun z => if z = n then p else st.par z }
  else st

/-- The parent-chasing path reconstruction (`while (cr !== -1)`): collect
positions until a row of `-1` is met.  The source's loop is unbounded; the
fuel argument (instantiated with `gridH g * gridW g + 1`, enough for any
acyclic parent chain) models it. -/
def reconstructPath (par : Pos → Pos) : Nat → Pos → List Pos
  | 0, _ => []
  | fuel + 1, p => if p.1 = -1 then [] else p :: reconstructPath par fuel (par p)

/-- The dequeue loop of `bfsShortestPath`: take the head entry, return
`{distance, path}` if it is the goal (checked before any cell-type test),
otherwise expand its four neighbors in the fixed up, down, left, right order
and continue.  The fuel models the `while (head < queue.length)` loop; with
fuel `gridH g * gridW g + 1` it never runs out (each dequeued entry was
enqueued while marking a distinct in-bounds cell visited). -/
def bfsAux (g : Grid) (goal : Pos) :
    Nat → List (Pos × Nat) → (Pos → Bool) → (Pos → Pos) → Option (Nat × List Pos)
  | 0, _, _, _ => none
  | _ + 1, [], _, _ => none
  | fuel + 1, (p, d) :: rest, vis, par =>
    if p = goal then
      some (d, (reconstructPath par (gridH g * gridW g + 1) p).reverse)
    else
      let st := actionDeltas.foldl (bfsRelax g p d) ⟨rest, vis, par⟩
      bfsAux g goal fuel st.queue st.vis st.par

/-- `bfsShortestPath(grid, start, goal)`: breadth-first search from `start`
over the 4-neighbor graph of path cells; `none` models the `null` no-path
sentinel. -/
def bfsShortestPath (g : Grid) (s goal : Pos) : Option (Nat × List Pos) :=
  bfsAux g goal (gridH g * gridW g + 1) [(s, 0)] (fun z => z == s)
    (fun _ => (-1, -1))

/-- A position is an in-bounds cell of `g` (bounds exactly as the BFS checks
them). -/
@[reducible] def inGrid (g : Grid) (p : Pos) : Prop :=
  0 ≤ p.1 ∧ p.1 < (gridH g : Int) ∧ 0 ≤ p.2 ∧ p.2 < (gridW g : Int)

/-- A position is an in-bounds path cell of `g`. -/
@[reducible] def isOpenCell (g : Grid) (p : Pos) : Prop :=
  inGrid g p ∧ cellAt g p.1 p.2 = 0

/-- One hop of the 4-neighbor grid graph. -/
def Adjacent (p q : Pos) : Prop :=
  ∃ dl ∈ actionDeltas, q = (p.1 + dl.1, p.2 + dl.2)

/-- Specification-side reachability: `ReachIn g s p n` holds when there is a
route of `n` hops from `s` to `p` each of which lands on a path cell (the
start cell's own type is never constrained, matching the search). -/
inductive ReachIn (g : Grid) (s : Pos) : Pos → Nat → Prop
  | refl : ReachIn g s s 0
  | step {p q : Pos} {n : Nat} :
      ReachIn g s p n → Adjacent p q → isOpenCell g q → ReachIn g s q (n + 1)

/-- Specification-side shortest distance: attained, and a lower bound of
every route length. -/
def MinDist (g : Grid) (s p : Pos) (d : Nat) : Prop :=
  ReachIn g s p d ∧ ∀ n, ReachIn g s p n → d ≤ n

/-- The in-bounds cells of a grid, enumerated row-major. -/
def cellsList (g : Grid) : List Pos :=
  (List.range (gridH g)).flatMap fun (r : Nat) =>
    (List.range (gridW g)).map fun (c : Nat) => ((r : Int), (c : Int))

/-- How many in-bounds cells a visited-array marks. -/
def visCount (g : Grid) (vis : Pos → Bool) : Nat := (cellsList g).countP vis

/-- One row of the random scatter of `generateMaze`: border cells are walls
(consuming no randomness); each interior cell is a wall with probability
0.30, consuming one random number, scanning columns left to right. -/
def genRowAux (rng : Nat → ℚ) (rows cols r : Nat) :
    Nat → Nat → Nat → List Nat × Nat
  | 0, _, k => ([], k)
  | rem + 1, c, k =>
    if r = 0 ∨ r = rows - 1 ∨ c = 0 ∨ c = cols - 1 then
      let rest := genRowAux rng rows cols r rem (c + 1) k
      (1 :: rest.1, rest.2)
    else
      let cell : Nat := if rng k < 3 / 10 then 1 else 0
      let rest := genRowAux rng rows cols r rem (c + 1) (k + 1)
      (cell :: rest.1, rest.2)

/-- All rows of the random scatter, top to bottom. -/
def genGridAux (rng : Nat → ℚ) (rows cols : Nat) :
    Nat → Nat → Nat → Grid × Nat
  | 0, _, k => ([], k)
  | rem + 1, r, k =>
    let row := genRowAux rng rows cols r cols 0 k
    let rest := genGridAux rng rows cols rem (r + 1) row.2
    (row.1 :: rest.1, rest.2)

/-- `grid[r][c] = v` on a row list (no-op when the index is off the end). -/
def setRow : List Nat → Nat → Nat → List Nat
  | [], _, _ => []
  | _ :: xs, 0, v => v :: xs
  | x :: xs, n + 1, v => x :: setRow xs n v

/-- `grid[p[0]][p[1]] = v` (no-op off the grid; the source only writes in
bounds). -/
def setCell : Grid → Int → Int → Nat → Grid
  | [], _, _, _ => []
  | row :: rest, r, c, v =>
    if r = 0 then (if 0 ≤ c then setRow row c.toNat v else row) :: rest
    else row :: setCell rest (r - 1) c v

/-- The repair loop of `generateMaze`: up to 200 times, clear a uniformly
random interior cell (two random draws) and re-check connectivity; the flag
reports whether the final grid passed the connectivity check. -/
def pokeLoop (rng : Nat → ℚ) (rows cols : Nat) (s t : Pos) :
    Grid → Nat → Nat → Grid × Bool × Nat
  | g, 0, k => (g, false, k)
  | g, a + 1, k =>
    let r : Int := 1 + ⌊rng k * ((rows : ℚ) - 2)⌋
    let c : Int := 1 + ⌊rng (k + 1) * ((cols : ℚ) - 2)⌋
    let g2 := setCell g r c 0
    if (bfsShortestPath g2 s t).isSome then (g2, true, k + 2)
    else pokeLoop rng rows cols s t g2 a (k + 2)

/-- `generateMaze(rows, cols, start, goal)`: random scatter with forced-open
start and goal, connectivity check, the 200-poke repair loop, and a recursive
retry from scratch.  The source's retry recursion is unbounded; the fuel
argument bounds the recursion depth and `none` stands for the run not having
returned within that depth (the claims quantify over every successful
return). -/
def generateMazeF (rng : Nat → ℚ) :
    Nat → Nat → Nat → Pos → Pos → Nat → Option (Grid × Nat)
  | 0, _, _, _, _, _ => none
  | fuel + 1, rows, cols, s, t, k =>
    let g0 := genGridAux rng rows cols rows 0 k
    let g1 := setCell (setCell g0.1 s.1 s.2 0) t.1 t.2 0
    if (bfsShortestPath g1 s t).isSome then some (g1, g0.2)
    else
      let pk := pokeLoop rng rows cols s t g1 200 g0.2
      if pk.2.1 then some (pk.1, pk.2.2)
      else generateMazeF rng fuel rows cols s t pk.2.2

/-! ### Concrete fixtures used by witnesses and counterexamples -/

/-- The 5x5 fixture maze of the specification: a ring corridor around a
center wall. -/
def fixtureMaze : Grid :=
  [[1, 1, 1, 1, 1], [1, 0, 0, 0, 1], [1, 0, 1, 0, 1], [1, 0, 0, 0, 1],
   [1, 1, 1, 1, 1]]

/-- A 3x3 grid whose only path cell is (1, 2); used to watch a search that
starts on the wall cell (1, 1). -/
def wallStartGrid : Grid := [[1, 1, 1], [1, 1, 0], [1, 1, 1]]

/-- A 4x4 grid with two open cells, (1, 1) and (2, 2), that are not
4-adjacent: an agent starting at (1, 1) can never move. -/
def pocketGrid : Grid :=
  [[1, 1, 1, 1], [1, 0, 1, 1], [1, 1, 0, 1], [1, 1, 1, 1]]

/-- The pocket grid as an environment: start (1, 1), goal (2, 2). -/
def pocketEnv : GridWorld := ⟨pocketGrid, (1, 1), (2, 2)⟩

/-- A 4x4 policy that favors UP (logit 0 at flat index 20, the UP slot of
state (1, 1)) with all other logits at -20: from (1, 1) of the pocket grid
the favored action walks directly into a wall. -/
def wallLovingPolicy : Policy := ⟨4, 4, fun i => if i = 20 then 0 else -20⟩

/-- The all-zero 4x4 policy (uniform). -/
def zeroPolicy4 : Policy := ⟨4, 4, fun _ => 0⟩

/-- A 1x2 all-path environment: start (0, 0), goal (0, 1). -/
def demoEnv : GridWorld := ⟨[[0, 0]], (0, 0), (0, 1)⟩

/-- The all-zero policy for `demoEnv`. -/
def demoPolicy : Policy := ⟨1, 2, fun _ => 0⟩

/-- A random stream driving two `demoEnv` trajectories: the first moves
RIGHT (success), the second moves LEFT into the wall (failure). -/
def demoRng : Nat → ℚ := fun j => if j = 1 then 4 / 5 else if j = 3 then 3 / 5 else 0

/-- A 1x1 all-wall environment whose start and goal coincide at (0, 0):
every rollout succeeds immediately. -/
def trivialEnv : GridWorld := ⟨[[1]], (0, 0), (0, 0)⟩

/-- A 1x1 policy with every logit 5: not a fixed point of `clipLogits`. -/
def unclippedPolicy : Policy := ⟨1, 1, fun _ => 5⟩

/-- A computable stand-in for `Math.exp` used by witnesses (the theorems are
quantified over the exponential map). -/
def unitExp : ℚ → ℚ := fun _ => 1

/-- The constantly-zero random stream. -/
def zeroRng : Nat → ℚ := fun _ => 0

/-- The invariant of the BFS dequeue loop, over the remaining queue and the
visited array: the start is visited; every queue entry is a visited in-bounds
cell carrying its exact shortest distance; the queue's distances are
non-decreasing and spread over at most two consecutive values; no cell is
queued twice; every visited cell that has left the queue has all its open
neighbors visited; and every cell at least as close as the queue's head is
already visited. -/
structure BfsInv (g : Grid) (s : Pos) (Q : List (Pos × Nat)) (vis : Pos → Bool) :
    Prop where
  startVis : vis s = true
  mem : ∀ pd ∈ Q, vis pd.1 = true ∧ MinDist g s pd.1 pd.2 ∧ inGrid g pd.1
  sorted : Q.Pairwise (fun a b => a.2 ≤ b.2)
  spread : ∀ a ∈ Q, ∀ b ∈ Q, a.2 ≤ b.2 + 1
  nodupQ : (Q.map Prod.fst).Nodup
  closed : ∀ p, vis p = true → p ∉ Q.map Prod.fst →
    ∀ q, Adjacent p q → isOpenCell g q → vis q = true
  frontier : ∀ z m pd, MinDist g s z m → Q.head? = some pd → m ≤ pd.2 →
    vis z = true

/-- The intermediate state of the neighbor-expansion fold while processing a
dequeued entry `(p, d)` whose not-yet-dequeued queue tail is `rest` and whose
visited array before the expansion is `V0`: some list `new` of fresh cells
has been appended at distance `d + 1`, each open, adjacent to `p`, at exact
shortest distance `d + 1` and previously unvisited; the visited array is
`V0` plus exactly `new`; and the visited count grew by `new.length`. -/
def BfsMid (g : Grid) (s : Pos) (p : Pos) (d : Nat) (rest : List (Pos × Nat))
    (V0 : Pos → Bool) (st : BfsSt) : Prop :=
  ∃ new : List Pos,
    st.queue = rest ++ new.map (fun n => (n, d + 1)) ∧
    new.Nodup ∧
    (∀ n ∈ new, isOpenCell g n ∧ Adjacent p n ∧ MinDist g s n (d + 1) ∧
      V0 n = false) ∧
    (∀ z, st.vis z = true ↔ (V0 z = true ∨ z ∈ new)) ∧
    visCount g st.vis = visCount g V0 + new.length

/-! ### Lemmas about `clipLogits` -/

lemma clampQ_nonpos {x : ℚ} (h : x ≤ 0) : clampQ x ≤ 0 := by
  unfold clampQ; split_ifs <;> linarith

lemma neg20_le_clampQ (x : ℚ) : -20 ≤ clampQ x := by
  unfold clampQ; split_ifs <;> linarith

lemma clampQ_eq_self {x : ℚ} (h1 : -20 ≤ x) (h2 : x ≤ 20) : clampQ x = x := by
  unfold clampQ; split_ifs <;> linarith

lemma maxLogit_nat (p : Policy) (b : Nat) :
    maxLogit p (b : Int) =
      max (max (max (p.logits b) (p.logits (b + 1))) (p.logits (b + 2)))
        (p.logits (b + 3)) := by
  unfold maxLogit logitAt
  rw [if_pos (by omega), if_pos (by omega), if_pos (by omega), if_pos (by omega)]
  have t0 : ((b : Int)).toNat = b := by omega
  have t1 : ((b : Int) + 1).toNat = b + 1 := by omega
  have t2 : ((b : Int) + 2).toNat = b + 2 := by omega
  have t3 : ((b : Int) + 3).toNat = b + 3 := by omega
  rw [t0, t1, t2, t3]

lemma max4_choice (a b c d : ℚ) :
    max (max (max a b) c) d = a ∨ max (max (max a b) c) d = b ∨
      max (max (max a b) c) d = c ∨ max (max (max a b) c) d = d := by
  rcases max_choice (max (max a b) c) d with h | h
  · rcases max_choice (max a b) c with h2 | h2
    · rcases max_choice a b with h3 | h3
      · exact Or.inl (by rw [h, h2, h3])
      · exact Or.inr (Or.inl (by rw [h, h2, h3]))
    · exact Or.inr (Or.inr (Or.inl (by rw [h, h2])))
  · exact Or.inr (Or.inr (Or.inr h))

lemma clipLogits_at (p : Policy) {i : Nat} (h : i < p.height * p.width * 4) :
    (clipLogits p).logits i =
      clampQ (p.logits i - maxLogit p ((i / 4 * 4 : Nat) : Int)) := by
  simp [clipLogits, h]

lemma clipLogits_at_of_ge (p : Policy) {i : Nat}
    (h : ¬ i < p.height * p.width * 4) :
    (clipLogits p).logits i = p.logits i := by
  simp [clipLogits, h]

/-- After one `clipLogits`, every state (index `s < height * width`) has its
four logits in `[-20, 0]` with maximum exactly `0`. -/
lemma clip_state (p : Policy) (s : Nat) (hs : s < p.height * p.width) :
    (max (max (max ((clipLogits p).logits (s * 4))
          ((clipLogits p).logits (s * 4 + 1)))
        ((clipLogits p).logits (s * 4 + 2)))
      ((clipLogits p).logits (s * 4 + 3)) = 0) ∧
    ∀ a, a < 4 → -20 ≤ (clipLogits p).logits (s * 4 + a) ∧
      (clipLogits p).logits (s * 4 + a) ≤ 0 := by
  have hb : ∀ a, a < 4 → s * 4 + a < p.height * p.width * 4 := by omega
  have hdiv : ∀ a, a < 4 → (s * 4 + a) / 4 * 4 = s * 4 := by omega
  have hval : ∀ a, a < 4 → (clipLogits p).logits (s * 4 + a) =
      clampQ (p.logits (s * 4 + a) - maxLogit p ((s * 4 : Nat) : Int)) := by
    intro a ha
    rw [clipLogits_at p (hb a ha), hdiv a ha]
  have hM : maxLogit p ((s * 4 : Nat) : Int) =
      max (max (max (p.logits (s * 4)) (p.logits (s * 4 + 1)))
        (p.logits (s * 4 + 2))) (p.logits (s * 4 + 3)) := maxLogit_nat p (s * 4)
  set M := maxLogit p ((s * 4 : Nat) : Int) with hMdef
  have hle : ∀ a, a < 4 → p.logits (s * 4 + a) ≤ M := by
    intro a ha
    interval_cases a
    · rw [hM]
      exact le_max_of_le_left (le_max_of_le_left (le_max_left _ _))
    · rw [hM]; exact le_max_of_le_left (le_max_of_le_left (le_max_right _ _))
    · rw [hM]; exact le_max_of_le_left (le_max_right _ _)
    · rw [hM]; exact le_max_right _ _
  have hnonpos : ∀ a, a < 4 → (clipLogits p).logits (s * 4 + a) ≤ 0 := by
    intro a ha
    rw [hval a ha]
    exact clampQ_nonpos (by linarith [hle a ha])
  have hge : ∀ a, a < 4 → -20 ≤ (clipLogits p).logits (s * 4 + a) := by
    intro a ha; rw [hval a ha]; exact neg20_le_clampQ _
  refine ⟨?_, fun a ha => ⟨hge a ha, hnonpos a ha⟩⟩
  have hzero : ∃ a, a < 4 ∧ (clipLogits p).logits (s * 4 + a) = 0 := by
    have hch := max4_choice (p.logits (s * 4)) (p.logits (s * 4 + 1))
      (p.logits (s * 4 + 2)) (p.logits (s * 4 + 3))
    rw [← hM] at hch
    have hz : ∀ a, a < 4 → M = p.logits (s * 4 + a) →
        (clipLogits p).logits (s * 4 + a) = 0 := by
      intro a ha he
      rw [hval a ha, ← he]
      simpa using clampQ_eq_self (x := 0) (by norm_num) (by norm_num)
    rcases hch with h | h | h | h
    · exact ⟨0, by norm_num, hz 0 (by norm_num) (by simpa using h)⟩
    · exact ⟨1, by norm_num, hz 1 (by norm_num) h⟩
    · exact ⟨2, by norm_num, hz 2 (by norm_num) h⟩
    · exact ⟨3, by norm_num, hz 3 (by norm_num) h⟩
  obtain ⟨a, ha, haz⟩ := hzero
  apply le_antisymm
  · exact max_le (max_le (max_le (hnonpos 0 (by norm_num))
      (hnonpos 1 (by norm_num))) (hnonpos 2 (by norm_num))) (hnonpos 3 (by norm_num))
  · interval_cases a
    · rw [← haz]
      exact le_max_of_le_left (le_max_of_le_left (le_max_left _ _))
    · rw [← haz]; exact le_max_of_le_left (le_max_of_le_left (le_max_right _ _))
    · rw [← haz]; exact le_max_of_le_left (le_max_right _ _)
    · rw [← haz]; exact le_max_right _ _

lemma policy_ext {p q : Policy} (h1 : p.height = q.height)
    (h2 : p.width = q.width) (h3 : ∀ i, p.logits i = q.logits i) : p = q := by
  cases p; cases q
  simp only at h1 h2 h3
  subst h1; subst h2
  exact congrArg (Policy.mk _ _) (funext h3)

/-- C4 (confirmed): after any call to `clipLogits`, for every in-range state
`(r, c)` of the policy, the maximum over the four actions of the logits is
exactly 0 and every logit is at least -20. -/
theorem clip_invariant (p : Policy) (r c : Nat) (hr : r < p.height)
    (hc : c < p.width) :
    (max (max (max ((clipLogits p).logits ((r * p.width + c) * 4))
          ((clipLogits p).logits ((r * p.width + c) * 4 + 1)))
        ((clipLogits p).logits ((r * p.width + c) * 4 + 2)))
      ((clipLogits p).logits ((r * p.width + c) * 4 + 3)) = 0) ∧
    ∀ a, a < 4 → -20 ≤ (clipLogits p).logits ((r * p.width + c) * 4 + a) := by
  have hs : r * p.width + c < p.height * p.width := by
    calc r * p.width + c < r * p.width + p.width := by omega
    _ = (r + 1) * p.width := by ring
    _ ≤ p.height * p.width := Nat.mul_le_mul_right _ hr
  obtain ⟨h1, h2⟩ := clip_state p (r * p.width + c) hs
  exact ⟨h1, fun a ha => (h2 a ha).1⟩

/-- C4 witness: the invariant at a concrete clipped policy. -/
theorem clip_invariant_witness :
    (max (max (max ((clipLogits ⟨1, 2, fun i => (i : ℚ)⟩).logits ((0 * 2 + 1) * 4))
          ((clipLogits ⟨1, 2, fun i => (i : ℚ)⟩).logits ((0 * 2 + 1) * 4 + 1)))
        ((clipLogits ⟨1, 2, fun i => (i : ℚ)⟩).logits ((0 * 2 + 1) * 4 + 2)))
      ((clipLogits ⟨1, 2, fun i => (i : ℚ)⟩).logits ((0 * 2 + 1) * 4 + 3)) = 0) ∧
    ∀ a, a < 4 →
      -20 ≤ (clipLogits ⟨1, 2, fun i => (i : ℚ)⟩).logits ((0 * 2 + 1) * 4 + a) :=
  clip_invariant ⟨1, 2, fun i => (i : ℚ)⟩ 0 1 (by norm_num) (by norm_num)

/-- C10 (confirmed): `clipLogits` is idempotent: a second call subtracts the
new per-state maximum 0 and re-clamps values already in `[-20, 0]`, so it
changes nothing. -/
theorem clip_idempotent (p : Policy) : clipLogits (clipLogits p) = clipLogits p := by
  refine policy_ext rfl rfl fun i => ?_
  by_cases hi : i < p.height * p.width * 4
  · have hi2 : i < (clipLogits p).height * (clipLogits p).width * 4 := hi
    rw [clipLogits_at (clipLogits p) hi2]
    have hdiv4 : i / 4 < p.height * p.width := by omega
    have hsplit : i / 4 * 4 + i % 4 = i := by omega
    obtain ⟨hmax, hbnd⟩ := clip_state p (i / 4) hdiv4
    have hM0 : maxLogit (clipLogits p) ((i / 4 * 4 : Nat) : Int) = 0 := by
      rw [maxLogit_nat]; exact hmax
    rw [hM0, sub_zero]
    obtain ⟨hge, hle⟩ := hbnd (i % 4) (by omega)
    rw [hsplit] at hge hle
    exact clampQ_eq_self hge (by linarith)
  · have hi2 : ¬ i < (clipLogits p).height * (clipLogits p).width * 4 := hi
    rw [clipLogits_at_of_ge (clipLogits p) hi2]

/-! ### Rollout and evaluator -/

lemma rolloutAux_shape (e : ℚ → ℚ) (pol : Policy) (env : GridWorld)
    (rng : Nat → ℚ) : ∀ (fuel : Nat) (pos : Pos) (k : Nat),
    (rolloutAux e pol env rng pos fuel k).1.path.length =
      (rolloutAux e pol env rng pos fuel k).1.stateActions.length + 1 ∧
    (rolloutAux e pol env rng pos fuel k).1.path.head? = some pos := by
  intro fuel
  induction fuel with
  | zero => intro pos k; simp [rolloutAux]
  | succ n ih =>
    intro pos k
    cases hb : (pos == env.goal) with
    | true => simp [rolloutAux, hb]
    | false =>
      have := ih (env.step pos (sampleAction e pol pos.1 pos.2 (rng k))).1 (k + 1)
      simp [rolloutAux, hb]
      omega

lemma rolloutAux_at_goal (e : ℚ → ℚ) (pol : Policy) (env : GridWorld)
    (rng : Nat → ℚ) (fuel k : Nat) (pos : Pos) (h : pos = env.goal) :
    (rolloutAux e pol env rng pos fuel k).1.reachedGoal = true ∧
    (rolloutAux e pol env rng pos fuel k).1.stateActions = [] := by
  cases fuel <;> simp [rolloutAux, h]

/-- C7 (confirmed): a rollout from a given (non-null) start returns one more
visited position than taken state-actions, starts its path at the start, and
when the start is the goal it is immediately successful with an empty
state-action list. -/
theorem rollout_shape (e : ℚ → ℚ) (pol : Policy) (env : GridWorld) (start : Pos)
    (maxSteps : Nat) (rng : Nat → ℚ) (k : Nat) :
    (rollout e pol env (some start) maxSteps rng k).1.path.length =
      (rollout e pol env (some start) maxSteps rng k).1.stateActions.length + 1 ∧
    (rollout e pol env (some start) maxSteps rng k).1.path.head? = some start ∧
    (start = env.goal →
      (rollout e pol env (some start) maxSteps rng k).1.reachedGoal = true ∧
      (rollout e pol env (some start) maxSteps rng k).1.stateActions = []) := by
  have hs := rolloutAux_shape e pol env rng maxSteps start k
  refine ⟨?_, ?_, ?_⟩
  · exact hs.1
  · exact hs.2
  · intro hg
    unfold rollout
    simp only [Option.getD_some]
    cases maxSteps <;> simp [rolloutAux, hg]

/-- C7 witness: the rollout shape at a concrete start that is also the
goal. -/
theorem rollout_shape_witness :
    (rollout unitExp zeroPolicy4 ⟨pocketGrid, (1, 1), (1, 1)⟩ (some (1, 1)) 3
        zeroRng 0).1.path.length =
      (rollout unitExp zeroPolicy4 ⟨pocketGrid, (1, 1), (1, 1)⟩ (some (1, 1)) 3
        zeroRng 0).1.stateActions.length + 1 ∧
    (rollout unitExp zeroPolicy4 ⟨pocketGrid, (1, 1), (1, 1)⟩ (some (1, 1)) 3
        zeroRng 0).1.path.head? = some (1, 1) ∧
    ((1, 1) = (GridWorld.mk pocketGrid (1, 1) (1, 1)).goal →
      (rollout unitExp zeroPolicy4 ⟨pocketGrid, (1, 1), (1, 1)⟩ (some (1, 1)) 3
        zeroRng 0).1.reachedGoal = true ∧
      (rollout unitExp zeroPolicy4 ⟨pocketGrid, (1, 1), (1, 1)⟩ (some (1, 1)) 3
        zeroRng 0).1.stateActions = []) :=
  rollout_shape unitExp zeroPolicy4 ⟨pocketGrid, (1, 1), (1, 1)⟩ (1, 1) 3 zeroRng 0

lemma evalAux_acc (e : ℚ → ℚ) (pol : Policy) (env : GridWorld) (start : Pos)
    (maxSteps : Nat) (rng : Nat → ℚ)
    (h2 : ∀ j, (rollout e pol env (some start) maxSteps rng j).1.reachedGoal = false) :
    ∀ (n k acc : Nat), (evalAux e pol env start maxSteps rng n k acc).1 = acc := by
  intro n
  induction n with
  | zero => intro k acc; simp [evalAux]
  | succ m ih =>
    intro k acc
    simp [evalAux, h2 k, ih]

/-- C8 (confirmed): when no rollout from the start reaches the goal within
the step budget (the claim's scenario of a policy that walks into a wall
from the only start), `evaluateFromStart` returns the success fraction 0 for
every `nEval >= 1`. -/
theorem evaluate_never_success_zero (e : ℚ → ℚ) (pol : Policy) (env : GridWorld)
    (start : Pos) (nEval maxSteps : Nat) (rng : Nat → ℚ) (k : Nat)
    (h1 : 1 ≤ nEval)
    (h2 : ∀ j, (rollout e pol env (some start) maxSteps rng j).1.reachedGoal = false) :
    (evaluateFromStart e pol env start nEval maxSteps rng k).1 = 0 := by
  show ((evalAux e pol env start maxSteps rng nEval k 0).1 : ℚ) / (nEval : ℚ) = 0
  rw [evalAux_acc e pol env start maxSteps rng h2 nEval k 0]
  simp

lemma pocketEnv_step (a : Nat) : (pocketEnv.step (1, 1) a).1 = (1, 1) := by
  by_cases h4 : a < 4
  · interval_cases a <;> decide
  · have hd : actionDeltas.get? a = none :=
      List.get?_eq_none.mpr (by simp [actionDeltas]; omega)
    simp only [GridWorld.step, List.getD, hd, Option.getD_none]
    decide

lemma pocket_rollout_fails (e : ℚ → ℚ) (pol : Policy) (rng : Nat → ℚ) :
    ∀ (fuel k : Nat),
    (rolloutAux e pol pocketEnv rng (1, 1) fuel k).1.reachedGoal = false := by
  intro fuel
  induction fuel with
  | zero =>
    intro k
    simp only [rolloutAux]
    decide
  | succ n ih =>
    intro k
    have hg : (((1, 1) : Pos) == pocketEnv.goal) = false := by decide
    rw [rolloutAux]
    simp only [hg, Bool.false_eq_true, if_false]
    rw [pocketEnv_step]
    exact ih (k + 1)

/-- C8 witness: with the wall-favoring policy on the pocket grid the
evaluator reports 0. -/
theorem evaluate_never_success_zero_witness :
    (evaluateFromStart unitExp wallLovingPolicy pocketEnv (1, 1) 5 3 zeroRng 0).1 = 0 :=
  evaluate_never_success_zero unitExp wallLovingPolicy pocketEnv (1, 1) 5 3 zeroRng 0
    (by norm_num)
    (fun j => pocket_rollout_fails unitExp wallLovingPolicy zeroRng 3 j)


/-! ### Training updates -/

lemma batchK_of_all_false {ts : List Traj}
    (h : ∀ t ∈ ts, t.reachedGoal = false) : batchK ts = 0 := by
  unfold batchK
  apply List.sum_eq_zero
  intro x hx
  obtain ⟨t, ht, rfl⟩ := List.mem_map.mp hx
  simp [reward, h t ht]

lemma batchK_of_all_true {ts : List Traj}
    (h : ∀ t ∈ ts, t.reachedGoal = true) : batchK ts = ts.length := by
  induction ts with
  | nil => simp [batchK]
  | cons t rest ih =>
    have ht := h t (List.mem_cons_self t rest)
    have hr : ∀ u ∈ rest, u.reachedGoal = true := fun u hu =>
      h u (List.mem_cons_of_mem t hu)
    simp [batchK, reward, ht] at ih ⊢
    rw [ih hr]
    ring

lemma sampleTrajs_length (e : ℚ → ℚ) (pol : Policy) (env : GridWorld)
    (starts : List Pos) (startProbs : List ℚ) (maxSteps : Nat) (rng : Nat → ℚ) :
    ∀ N k, (sampleTrajs e pol env starts startProbs maxSteps rng N k).1.length = N := by
  intro N
  induction N with
  | zero => intro k; simp [sampleTrajs]
  | succ n ih => intro k; simp [sampleTrajs, ih]

lemma listGetInt_singleton_getD (x : Pos) (i : Int) :
    (listGetInt [x] i).getD x = x := by
  unfold listGetInt
  split
  · cases h : i.toNat with
    | zero => simp
    | succ n => simp
  · simp

/-- C2 (confirmed): when the sampled batch contains no successful
trajectory, `maxrlUpdate` returns `K = 0` and hands back the policy
untouched: no gradient step and no `clipLogits`. -/
theorem maxrl_skip_on_zero_successes (e : ℚ → ℚ) (pol : Policy)
    (env : GridWorld) (starts : List Pos) (startProbs : List ℚ) (N : Nat)
    (lr : ℚ) (maxSteps : Nat) (rng : Nat → ℚ) (k : Nat)
    (h : ∀ t ∈ (sampleTrajs e pol env starts startProbs maxSteps rng N k).1,
      t.reachedGoal = false) :
    maxrlUpdate e pol env starts startProbs N lr maxSteps rng k =
      ((pol, 0), (sampleTrajs e pol env starts startProbs maxSteps rng N k).2) := by
  have hK := batchK_of_all_false h
  unfold maxrlUpdate
  simp [hK]

lemma sampleTrajs_pocket_all_fail (e : ℚ → ℚ) (pol : Policy) (maxSteps : Nat)
    (rng : Nat → ℚ) : ∀ N k,
    ∀ t ∈ (sampleTrajs e pol pocketEnv [(1, 1)] [1] maxSteps rng N k).1,
      t.reachedGoal = false := by
  intro N
  induction N with
  | zero => intro k t ht; simp [sampleTrajs] at ht
  | succ n ih =>
    intro k t ht
    simp only [sampleTrajs, List.mem_cons] at ht
    rcases ht with rfl | ht
    · show (rollout e pol pocketEnv
        (listGetInt [(1, 1)] (chooseWeighted [1] (rng k))) maxSteps rng
        (k + 1)).1.reachedGoal = false
      unfold rollout
      rw [show (listGetInt [((1 : Int), (1 : Int))]
          (chooseWeighted [1] (rng k))).getD pocketEnv.start = (1, 1) from
        listGetInt_singleton_getD (1, 1) _]
      exact pocket_rollout_fails e pol rng maxSteps (k + 1)
    · exact ih _ t ht

/-- C2 witness: on the pocket grid no trajectory succeeds and the update is
skipped. -/
theorem maxrl_skip_on_zero_successes_witness :
    maxrlUpdate unitExp zeroPolicy4 pocketEnv [(1, 1)] [1] 2 1 3 zeroRng 0 =
      ((zeroPolicy4, 0),
       (sampleTrajs unitExp zeroPolicy4 pocketEnv [(1, 1)] [1] 3 zeroRng 2 0).2) :=
  maxrl_skip_on_zero_successes unitExp zeroPolicy4 pocketEnv [(1, 1)] [1] 2 1 3
    zeroRng 0 (sampleTrajs_pocket_all_fail unitExp zeroPolicy4 3 zeroRng 2 0)

lemma accumSA_zero_coef (e : ℚ → ℚ) (pol : Policy) (g : Nat → ℚ)
    (sa : Int × Int × Nat) : accumSA e pol 0 g sa = g := by
  funext j
  simp only [accumSA]
  split <;> simp

lemma accumTraj_zero_coef (e : ℚ → ℚ) (pol : Policy)
    (sas : List (Int × Int × Nat)) : ∀ g, accumTraj e pol 0 g sas = g := by
  induction sas with
  | nil => intro g; rfl
  | cons sa rest ih =>
    intro g
    show accumTraj e pol 0 (accumSA e pol 0 g sa) rest = g
    rw [accumSA_zero_coef, ih]

lemma gradFold_zero_coefs (e : ℚ → ℚ) (pol : Policy) (f : Traj → ℚ) :
    ∀ (ts : List Traj) (g0 : Nat → ℚ), (∀ t ∈ ts, f t = 0) →
      ts.foldl (fun g t => accumTraj e pol (f t) g t.stateActions) g0 = g0 := by
  intro ts
  induction ts with
  | nil => intro g0 _; rfl
  | cons t rest ih =>
    intro g0 hf
    show rest.foldl _ (accumTraj e pol (f t) g0 t.stateActions) = g0
    rw [hf t (List.mem_cons_self t rest), accumTraj_zero_coef, ih]
    exact fun u hu => hf u (List.mem_cons_of_mem t hu)

lemma reinforceGrad_zero (e : ℚ → ℚ) (pol : Policy) (N : Nat) (ts : List Traj)
    (hlen : ts.length = N)
    (hsame : (∀ t ∈ ts, t.reachedGoal = true) ∨ (∀ t ∈ ts, t.reachedGoal = false)) :
    reinforceGrad e pol N ts = fun _ => 0 := by
  unfold reinforceGrad
  apply gradFold_zero_coefs
  intro t ht
  have hts : ts ≠ [] := by
    intro hnil
    rw [hnil] at ht
    exact absurd ht (List.not_mem_nil t)
  have hNpos : 0 < N := hlen ▸ List.length_pos.mpr hts
  rcases hsame with hall | hall
  · have hK : batchK ts = N := by rw [batchK_of_all_true hall, hlen]
    have hNQ : ((N : ℚ)) ≠ 0 := by positivity
    rw [hK, reward, if_pos (hall t ht)]
    field_simp
  · have hK : batchK ts = 0 := batchK_of_all_false hall
    rw [hK, reward, if_neg (by simp [hall t ht])]
    simp

lemma reinforceUpdate_allsame (e : ℚ → ℚ) (pol : Policy) (env : GridWorld)
    (starts : List Pos) (startProbs : List ℚ) (N : Nat) (lr : ℚ)
    (maxSteps : Nat) (rng : Nat → ℚ) (k : Nat)
    (hsame :
      (∀ t ∈ (sampleTrajs e pol env starts startProbs maxSteps rng N k).1,
        t.reachedGoal = true) ∨
      (∀ t ∈ (sampleTrajs e pol env starts startProbs maxSteps rng N k).1,
        t.reachedGoal = false)) :
    (reinforceUpdate e pol env starts startProbs N lr maxSteps rng k).1.1 =
      clipLogits pol := by
  have hg := reinforceGrad_zero e pol N
    (sampleTrajs e pol env starts startProbs maxSteps rng N k).1
    (sampleTrajs_length e pol env starts startProbs maxSteps rng N k)
    hsame
  refine congrArg clipLogits (policy_ext rfl rfl fun i => ?_)
  show pol.logits i + lr * reinforceGrad e pol N
    (sampleTrajs e pol env starts startProbs maxSteps rng N k).1 i = pol.logits i
  rw [hg]
  simp

/-- C3 amended (corrected): when all sampled trajectories succeed or all
fail, every advantage is `0`, the accumulated gradient is zero, and the
resulting policy is exactly `clipLogits` of the original — so the logits are
unchanged exactly when the original policy is already a fixed point of
`clipLogits` (as every policy produced by a previous update is); the
unconditional final `clipLogits` still re-centers any other policy. -/
theorem reinforce_uniform_batch_amended (e : ℚ → ℚ) (pol : Policy)
    (env : GridWorld) (starts : List Pos) (startProbs : List ℚ) (N : Nat)
    (lr : ℚ) (maxSteps : Nat) (rng : Nat → ℚ) (k : Nat)
    (hsame :
      (∀ t ∈ (sampleTrajs e pol env starts startProbs maxSteps rng N k).1,
        t.reachedGoal = true) ∨
      (∀ t ∈ (sampleTrajs e pol env starts startProbs maxSteps rng N k).1,
        t.reachedGoal = false)) :
    (reinforceUpdate e pol env starts startProbs N lr maxSteps rng k).1.1 =
      clipLogits pol ∧
    (clipLogits pol = pol →
      (reinforceUpdate e pol env starts startProbs N lr maxSteps rng k).1.1 = pol) := by
  have hmain := reinforceUpdate_allsame e pol env starts startProbs N lr maxSteps
    rng k hsame
  exact ⟨hmain, fun hfix => hmain.trans hfix⟩

lemma sampleTrajs_trivial_all_true (e : ℚ → ℚ) (pol : Policy) (maxSteps : Nat)
    (rng : Nat → ℚ) : ∀ N k,
    ∀ t ∈ (sampleTrajs e pol trivialEnv [(0, 0)] [1] maxSteps rng N k).1,
      t.reachedGoal = true := by
  intro N
  induction N with
  | zero => intro k t ht; simp [sampleTrajs] at ht
  | succ n ih =>
    intro k t ht
    simp only [sampleTrajs, List.mem_cons] at ht
    rcases ht with rfl | ht
    · show (rollout e pol trivialEnv
        (listGetInt [(0, 0)] (chooseWeighted [1] (rng k))) maxSteps rng
        (k + 1)).1.reachedGoal = true
      unfold rollout
      rw [show (listGetInt [((0 : Int), (0 : Int))]
          (chooseWeighted [1] (rng k))).getD trivialEnv.start = (0, 0) from
        listGetInt_singleton_getD (0, 0) _]
      exact (rolloutAux_at_goal e pol trivialEnv rng maxSteps (k + 1) (0, 0) rfl).1
    · exact ih _ t ht

/-- C3 counterexample: on a start-equals-goal environment every trajectory
of the batch succeeds, yet `reinforceUpdate` changes an unclipped policy's
logits (5 becomes 0), because the final `clipLogits` is applied
unconditionally. -/
theorem reinforce_noop_counterexample :
    (∀ t ∈ (sampleTrajs unitExp unclippedPolicy trivialEnv [(0, 0)] [1] 1 zeroRng
        1 0).1, t.reachedGoal = true) ∧
    (reinforceUpdate unitExp unclippedPolicy trivialEnv [(0, 0)] [1] 1 1 1 zeroRng
        0).1.1.logits 0 = 0 ∧
    unclippedPolicy.logits 0 = 5 := by
  have hall := sampleTrajs_trivial_all_true unitExp unclippedPolicy 1 zeroRng 1 0
  refine ⟨hall, ?_, rfl⟩
  rw [reinforceUpdate_allsame unitExp unclippedPolicy trivialEnv [(0, 0)] [1] 1 1
    1 zeroRng 0 (Or.inl hall)]
  rw [clipLogits_at unclippedPolicy (by decide)]
  norm_num [maxLogit, logitAt, unclippedPolicy, clampQ]

/-- C3 witness: the amended statement at a concrete all-success batch. -/
theorem reinforce_uniform_batch_amended_witness :
    (reinforceUpdate unitExp unclippedPolicy trivialEnv [(0, 0)] [1] 1 1 1 zeroRng
        0).1.1 = clipLogits unclippedPolicy ∧
    (clipLogits unclippedPolicy = unclippedPolicy →
      (reinforceUpdate unitExp unclippedPolicy trivialEnv [(0, 0)] [1] 1 1 1 zeroRng
        0).1.1 = unclippedPolicy) :=
  reinforce_uniform_batch_amended unitExp unclippedPolicy trivialEnv [(0, 0)] [1]
    1 1 1 zeroRng 0
    (Or.inl (sampleTrajs_trivial_all_true unitExp unclippedPolicy 1 zeroRng 1 0))

lemma accumSA_apply (e : ℚ → ℚ) (pol : Policy) (c : ℚ) (g : Nat → ℚ)
    (sa : Int × Int × Nat) (j : Nat) :
    accumSA e pol c g sa j = g j + gradContrib e pol c sa j := by
  simp only [accumSA, gradContrib]
  split <;> simp

lemma accumTraj_apply (e : ℚ → ℚ) (pol : Policy) (c : ℚ) (j : Nat) :
    ∀ (sas : List (Int × Int × Nat)) (g : Nat → ℚ),
    accumTraj e pol c g sas j =
      g j + (sas.map fun sa => gradContrib e pol c sa j).sum := by
  intro sas
  induction sas with
  | nil => intro g; simp [accumTraj]
  | cons sa rest ih =>
    intro g
    show accumTraj e pol c (accumSA e pol c g sa) rest j = _
    rw [ih, accumSA_apply]
    simp only [List.map_cons, List.sum_cons]
    ring

lemma gradFold_apply (e : ℚ → ℚ) (pol : Policy) (f : Traj → ℚ) (j : Nat) :
    ∀ (ts : List Traj) (g0 : Nat → ℚ),
    (ts.foldl (fun g t => accumTraj e pol (f t) g t.stateActions) g0) j =
      g0 j + (ts.map fun t =>
        (t.stateActions.map fun sa => gradContrib e pol (f t) sa j).sum).sum := by
  intro ts
  induction ts with
  | nil => intro g0; simp
  | cons t rest ih =>
    intro g0
    show (rest.foldl _ (accumTraj e pol (f t) g0 t.stateActions)) j = _
    rw [ih, accumTraj_apply]
    simp only [List.map_cons, List.sum_cons]
    ring

lemma maxrlGrad_eq_sum (e : ℚ → ℚ) (pol : Policy) (N : Nat) (ts : List Traj)
    (j : Nat) : maxrlGrad e pol N ts j = maxrlGradSum e pol N ts j := by
  unfold maxrlGrad maxrlGradSum
  rw [gradFold_apply e pol (fun t => reward t / batchK ts - 1 / (N : ℚ)) j ts]
  exact zero_add _

/-- C1 amended (corrected): when the batch contains `K > 0` successes, the
gradient `maxrlUpdate` accumulates adds, for every (state, action) visited in
trajectory `i`, `w_i * scoreFunction(state, action)` — the self-normalized
weight `w_i = reward_i / K - 1 / N` with NO additional `1 / N` factor — into
the visited state's logit slots; the logits then change by `lr` times this
accumulated gradient before `clipLogits` is applied, and `K` is returned. -/
theorem maxrl_update_amended (e : ℚ → ℚ) (pol : Policy) (env : GridWorld)
    (starts : List Pos) (startProbs : List ℚ) (N : Nat) (lr : ℚ)
    (maxSteps : Nat) (rng : Nat → ℚ) (k : Nat)
    (h : 0 < batchK (sampleTrajs e pol env starts startProbs maxSteps rng N k).1) :
    maxrlUpdate e pol env starts startProbs N lr maxSteps rng k =
      ((clipLogits (Policy.mk pol.height pol.width (fun i => pol.logits i +
          lr * maxrlGradSum e pol N
            (sampleTrajs e pol env starts startProbs maxSteps rng N k).1 i)),
        batchK (sampleTrajs e pol env starts startProbs maxSteps rng N k).1),
       (sampleTrajs e pol env starts startProbs maxSteps rng N k).2) := by
  have hpol : ∀ i, pol.logits i + lr * maxrlGrad e pol N
      (sampleTrajs e pol env starts startProbs maxSteps rng N k).1 i =
      pol.logits i + lr * maxrlGradSum e pol N
        (sampleTrajs e pol env starts startProbs maxSteps rng N k).1 i := by
    intro i
    rw [maxrlGrad_eq_sum]
  simp only [maxrlUpdate, if_pos h]
  refine congrArg (fun p => ((p,
    batchK (sampleTrajs e pol env starts startProbs maxSteps rng N k).1),
    (sampleTrajs e pol env starts startProbs maxSteps rng N k).2)) ?_
  exact congrArg clipLogits (policy_ext rfl rfl hpol)

/-- C1 counterexample: a two-trajectory batch on a 1x2 grid with one success
and one failure (`K = 1`).  The engine's update drives the LEFT logit of the
start state to -1, while the update described by the claim — with the extra
`1 / N` factor on the weight — would drive it to -1/2 only. -/
theorem maxrl_weight_counterexample :
    batchK (sampleTrajs unitExp demoPolicy demoEnv [(0, 0)] [1] 1 demoRng 2 0).1
      = 1 ∧
    (maxrlUpdate unitExp demoPolicy demoEnv [(0, 0)] [1] 2 1 1 demoRng
      0).1.1.logits 2 = -1 ∧
    (maxrlUpdateClaimed unitExp demoPolicy demoEnv [(0, 0)] [1] 2 1 1 demoRng
      0).1.1.logits 2 = -(1 / 2) := by
  refine ⟨?_, ?_, ?_⟩
  · norm_num [sampleTrajs, rollout, rolloutAux, sampleAction, getProbs,
      maxLogit, logitAt, stateBase, chooseWeighted, chooseWeightedGo, listGetInt,
      GridWorld.step, actionDeltas, cellAt, gridH, gridW, demoEnv, demoPolicy,
      demoRng, unitExp, batchK, reward, GridWorld.height, GridWorld.width,
      List.getD, Option.getD, GridWorld.isPath, GridWorld.inBounds,
      Prod.mk.injEq, beq_iff_eq, Prod.ext_iff, max_def]
  · norm_num [maxrlUpdate, sampleTrajs, rollout, rolloutAux, sampleAction,
      getProbs, maxLogit, logitAt, stateBase, chooseWeighted, chooseWeightedGo,
      listGetInt, GridWorld.step, actionDeltas, cellAt, gridH, gridW, demoEnv,
      demoPolicy, demoRng, unitExp, maxrlGrad, batchK, reward, accumTraj,
      accumSA, scoreFunction, clipLogits, clampQ, GridWorld.height,
      GridWorld.width, List.getD, Option.getD, GridWorld.isPath,
      GridWorld.inBounds, Prod.mk.injEq, beq_iff_eq, Prod.ext_iff, max_def]
    simp
    norm_num
  · norm_num [maxrlUpdateClaimed, sampleTrajs, rollout, rolloutAux, sampleAction,
      getProbs, maxLogit, logitAt, stateBase, chooseWeighted, chooseWeightedGo,
      listGetInt, GridWorld.step, actionDeltas, cellAt, gridH, gridW, demoEnv,
      demoPolicy, demoRng, unitExp, maxrlGradClaimed, batchK, reward, accumTraj,
      accumSA, scoreFunction, clipLogits, clampQ, GridWorld.height,
      GridWorld.width, List.getD, Option.getD, GridWorld.isPath,
      GridWorld.inBounds, Prod.mk.injEq, beq_iff_eq, Prod.ext_iff, max_def]
    simp
    norm_num

/-- C1 witness: the amended statement at the concrete mixed batch. -/
theorem maxrl_update_amended_witness :
    maxrlUpdate unitExp demoPolicy demoEnv [(0, 0)] [1] 2 1 1 demoRng 0 =
      ((clipLogits (Policy.mk demoPolicy.height demoPolicy.width
          (fun i => demoPolicy.logits i + 1 * maxrlGradSum unitExp demoPolicy 2
            (sampleTrajs unitExp demoPolicy demoEnv [(0, 0)] [1] 1 demoRng 2 0).1 i)),
        batchK (sampleTrajs unitExp demoPolicy demoEnv [(0, 0)] [1] 1 demoRng 2 0).1),
       (sampleTrajs unitExp demoPolicy demoEnv [(0, 0)] [1] 1 demoRng 2 0).2) :=
  maxrl_update_amended unitExp demoPolicy demoEnv [(0, 0)] [1] 2 1 1 demoRng 0
    (by norm_num [sampleTrajs, rollout, rolloutAux, sampleAction, getProbs,
      maxLogit, logitAt, stateBase, chooseWeighted, chooseWeightedGo, listGetInt,
      GridWorld.step, actionDeltas, cellAt, gridH, gridW, demoEnv, demoPolicy,
      demoRng, unitExp, batchK, reward, GridWorld.height, GridWorld.width,
      List.getD, Option.getD, GridWorld.isPath, GridWorld.inBounds,
      Prod.mk.injEq, beq_iff_eq, Prod.ext_iff, max_def])

/-! ### Maze generation (C5) -/

lemma pokeLoop_connected (rng : Nat → ℚ) (rows cols : Nat) (s t : Pos) :
    ∀ (a : Nat) (g : Grid) (k : Nat),
    (pokeLoop rng rows cols s t g a k).2.1 = true →
    (bfsShortestPath (pokeLoop rng rows cols s t g a k).1 s t).isSome = true := by
  intro a
  induction a with
  | zero => intro g k h; simp [pokeLoop] at h
  | succ n ih =>
    intro g k h
    simp only [pokeLoop] at h ⊢
    split at h
    · rename_i hc
      rw [if_pos hc]
      exact hc
    · rename_i hc
      rw [if_neg hc]
      exact ih _ _ h

/-- C5 (confirmed): every grid that `generateMaze` actually returns (at any
recursion depth) passes the `bfsShortestPath` connectivity check from start
to goal. -/
theorem generateMaze_connected (rng : Nat → ℚ) :
    ∀ (fuel rows cols : Nat) (s t : Pos) (k : Nat) (g : Grid) (k2 : Nat),
    generateMazeF rng fuel rows cols s t k = some (g, k2) →
    (bfsShortestPath g s t).isSome = true := by
  intro fuel
  induction fuel with
  | zero => intro rows cols s t k g k2 h; simp [generateMazeF] at h
  | succ n ih =>
    intro rows cols s t k g k2 h
    simp only [generateMazeF] at h
    split at h
    · rename_i hc
      obtain ⟨rfl, rfl⟩ : _ ∧ _ := by
        have := Option.some.inj h
        exact ⟨congrArg Prod.fst this, congrArg Prod.snd this⟩
      exact hc
    · split at h
      · rename_i hcon
        obtain ⟨rfl, rfl⟩ : _ ∧ _ := by
          have := Option.some.inj h
          exact ⟨congrArg Prod.fst this, congrArg Prod.snd this⟩
        exact pokeLoop_connected rng rows cols s t 200 _ _ hcon
      · exact ih rows cols s t _ g k2 h

/-- C5 witness: a concrete successful generation, whose returned grid passes
the connectivity check. -/
theorem generateMaze_connected_witness :
    (bfsShortestPath [[1, 1, 1, 1], [1, 0, 0, 1], [1, 1, 1, 1]] (1, 1)
      (1, 2)).isSome = true :=
  generateMaze_connected zeroRng 1 3 4 (1, 1) (1, 2) 0
    [[1, 1, 1, 1], [1, 0, 0, 1], [1, 1, 1, 1]] 2 (by decide)

/-! ### BFS: start and goal handling (C9) -/

/-- C9 (confirmed): `bfsShortestPath` tests the goal on the dequeued cell
before looking at its type and never checks the start cell's type: searching
from any in-bounds position to itself returns distance 0 with the singleton
path, even on a wall cell; and a search started on a wall cell still expands
into adjacent path cells, as on the concrete `wallStartGrid` where the
search from the wall (1, 1) reaches the path cell (1, 2) at distance 1. -/
theorem bfs_start_goal_unchecked :
    (∀ (g : Grid) (p : Pos), inGrid g p →
      bfsShortestPath g p p = some (0, [p])) ∧
    cellAt wallStartGrid 1 1 = 1 ∧
    bfsShortestPath wallStartGrid (1, 1) (1, 2) = some (1, [(1, 1), (1, 2)]) := by
  refine ⟨?_, by decide, by decide⟩
  intro g p hp
  obtain ⟨hp1, hp2, hp3, hp4⟩ := hp
  have hH : 0 < gridH g := by exact_mod_cast lt_of_le_of_lt hp1 hp2
  have hW : 0 < gridW g := by exact_mod_cast lt_of_le_of_lt hp3 hp4
  obtain ⟨m, hm⟩ := Nat.exists_eq_succ_of_ne_zero (Nat.mul_pos hH hW).ne'
  have hne : ¬ p.1 = -1 := by omega
  unfold bfsShortestPath
  rw [hm, bfsAux, if_pos rfl, hm, reconstructPath, if_neg hne, reconstructPath,
    if_pos rfl]
  simp

/-- C9 witness: the general start-equals-goal statement applied at the wall
cell (1, 1) of `wallStartGrid`. -/
theorem bfs_start_goal_unchecked_witness :
    bfsShortestPath wallStartGrid (1, 1) (1, 1) = some (0, [(1, 1)]) :=
  bfs_start_goal_unchecked.1 wallStartGrid (1, 1) (by decide)

/-! ### BFS: reachability infrastructure -/

lemma reachIn_zero_inv {g : Grid} {s p : Pos} (h : ReachIn g s p 0) : p = s := by
  cases h
  rfl

lemma reachIn_succ_inv {g : Grid} {s q : Pos} {n : Nat}
    (h : ReachIn g s q (n + 1)) :
    ∃ p, ReachIn g s p n ∧ Adjacent p q ∧ isOpenCell g q := by
  cases h with
  | step hp hadj hopen => exact ⟨_, hp, hadj, hopen⟩

lemma minDist_unique {g : Grid} {s p : Pos} {a b : Nat} (ha : MinDist g s p a)
    (hb : MinDist g s p b) : a = b :=
  le_antisymm (ha.2 b hb.1) (hb.2 a ha.1)

lemma exists_minDist {g : Grid} {s p : Pos} (h : ∃ n, ReachIn g s p n) :
    ∃ d, MinDist g s p d := by
  classical
  exact ⟨Nat.find h, Nat.find_spec h, fun m hm => Nat.find_le hm⟩

lemma minDist_pred {g : Grid} {s z : Pos} {d : Nat}
    (h : MinDist g s z (d + 1)) :
    ∃ y, MinDist g s y d ∧ Adjacent y z ∧ isOpenCell g z := by
  obtain ⟨y, hy, hadj, hopen⟩ := reachIn_succ_inv h.1
  refine ⟨y, ⟨hy, ?_⟩, hadj, hopen⟩
  intro m hm
  by_contra hlt
  push_neg at hlt
  have : ReachIn g s z (m + 1) := ReachIn.step hm hadj hopen
  have := h.2 (m + 1) this
  omega

lemma mem_cellsList {g : Grid} {p : Pos} : p ∈ cellsList g ↔ inGrid g p := by
  obtain ⟨a, b⟩ := p
  constructor
  · intro h
    simp only [cellsList, List.mem_flatMap, List.mem_map, List.mem_range] at h
    obtain ⟨r, hr, c, hc, heq⟩ := h
    have h1 : ((r : Int)) = a := congrArg Prod.fst heq
    have h2 : ((c : Int)) = b := congrArg Prod.snd heq
    refine ⟨?_, ?_, ?_, ?_⟩
    · show (0 : Int) ≤ a
      omega
    · show a < (gridH g : Int)
      omega
    · show (0 : Int) ≤ b
      omega
    · show b < (gridW g : Int)
      omega
  · rintro ⟨h1, h2, h3, h4⟩
    have h2a : a < (gridH g : Int) := h2
    have h4a : b < (gridW g : Int) := h4
    have h1a : (0 : Int) ≤ a := h1
    have h3a : (0 : Int) ≤ b := h3
    simp only [cellsList, List.mem_flatMap, List.mem_map, List.mem_range]
    refine ⟨a.toNat, by omega, b.toNat, by omega, ?_⟩
    rw [Prod.mk.injEq]
    exact ⟨by omega, by omega⟩

lemma cellsList_nodup (g : Grid) : (cellsList g).Nodup := by
  unfold cellsList
  rw [List.nodup_flatMap]
  constructor
  · intro r _
    refine List.Nodup.map ?_ (List.nodup_range _)
    intro x y hxy
    have := congrArg Prod.snd hxy
    simpa using this
  · refine List.Pairwise.imp ?_ (List.pairwise_lt_range _)
    intro r1 r2 hlt x hx1 hx2
    simp only [List.mem_map, List.mem_range] at hx1 hx2
    obtain ⟨c1, _, rfl⟩ := hx1
    obtain ⟨c2, _, heq⟩ := hx2
    have := congrArg Prod.fst heq
    simp only at this
    omega

lemma cellsList_length (g : Grid) :
    (cellsList g).length = gridH g * gridW g := by
  unfold cellsList
  simp only [List.length_flatMap]
  rw [show List.length ∘ (fun r : Nat =>
      List.map (fun c : Nat => (((r : Int), (c : Int)) : Pos))
        (List.range (gridW g))) = fun _ : Nat => gridW g from
    funext fun r => by simp]
  rw [List.map_const', List.sum_replicate, List.length_range, smul_eq_mul]

lemma countP_update_true {vis : Pos → Bool} {n : Pos} (hv : vis n = false) :
    ∀ {l : List Pos}, l.Nodup → n ∈ l →
    l.countP (fun z => if z = n then true else vis z) = l.countP vis + 1 := by
  intro l
  induction l with
  | nil => intro _ h; cases h
  | cons a rest ih =>
    intro hnd hmem
    rw [List.countP_cons, List.countP_cons]
    rcases List.mem_cons.mp hmem with heq | hmem2
    · subst heq
      have hnot : n ∉ rest := (List.nodup_cons.mp hnd).1
      have hcong : rest.countP (fun z => if z = n then true else vis z) =
          rest.countP vis := by
        apply List.countP_congr
        intro z hz
        have hzne : ¬ z = n := by
          rintro rfl
          exact hnot hz
        rw [if_neg hzne]
      rw [hcong]
      simp [hv]
    · have hne : a ≠ n := by
        rintro rfl
        exact (List.nodup_cons.mp hnd).1 hmem2
      rw [if_neg hne, ih (List.nodup_cons.mp hnd).2 hmem2]
      omega

lemma visCount_update (g : Grid) {vis : Pos → Bool} {n : Pos}
    (hin : inGrid g n) (hv : vis n = false) :
    visCount g (fun z => if z = n then true else vis z) = visCount g vis + 1 :=
  countP_update_true hv (cellsList_nodup g) (mem_cellsList.mpr hin)

lemma visCount_le (g : Grid) (vis : Pos → Bool) :
    visCount g vis ≤ gridH g * gridW g :=
  le_trans (List.countP_le_length _) (le_of_eq (cellsList_length g))

lemma countP_beq_one {s : Pos} :
    ∀ {l : List Pos}, l.Nodup → s ∈ l → l.countP (fun z => z == s) = 1 := by
  intro l
  induction l with
  | nil => intro _ h; cases h
  | cons a rest ih =>
    intro hnd hmem
    rw [List.countP_cons]
    rcases List.mem_cons.mp hmem with heq | hmem2
    · subst heq
      have hnot : s ∉ rest := (List.nodup_cons.mp hnd).1
      have hzero : rest.countP (fun z => z == s) = 0 := by
        rw [List.countP_eq_zero]
        intro z hz
        simp only [beq_iff_eq]
        rintro rfl
        exact hnot hz
      rw [hzero]
      simp
    · have hne : ¬ a = s := by
        rintro rfl
        exact (List.nodup_cons.mp hnd).1 hmem2
      rw [ih (List.nodup_cons.mp hnd).2 hmem2]
      simp [hne]

lemma visCount_init (g : Grid) {s : Pos} (hin : inGrid g s) :
    visCount g (fun z => z == s) = 1 :=
  countP_beq_one (cellsList_nodup g) (mem_cellsList.mpr hin)

lemma bfsRelax_step (g : Grid) (s p : Pos) (d : Nat) (rest : List (Pos × Nat))
    (V0 : Pos → Bool) (hpd : MinDist g s p d)
    (hA6 : ∀ z m, MinDist g s z m → m ≤ d → V0 z = true)
    (st : BfsSt) (hmid : BfsMid g s p d rest V0 st)
    (dl : Int × Int) (hdl : dl ∈ actionDeltas) :
    BfsMid g s p d rest V0 (bfsRelax g p d st dl) ∧
    (∀ z, st.vis z = true → (bfsRelax g p d st dl).vis z = true) ∧
    (isOpenCell g (p.1 + dl.1, p.2 + dl.2) →
      (bfsRelax g p d st dl).vis (p.1 + dl.1, p.2 + dl.2) = true) := by
  obtain ⟨new, hq, hnd, hprops, hiff, hcnt⟩ := hmid
  simp only [bfsRelax]
  split
  · rename_i hc
    obtain ⟨h1, h2, h3, h4, h5, h6⟩ := hc
    have hopen : isOpenCell g (p.1 + dl.1, p.2 + dl.2) := ⟨⟨h1, h2, h3, h4⟩, h5⟩
    have hnotnew : (p.1 + dl.1, p.2 + dl.2) ∉ new := by
      intro hmem
      have := (hiff _).mpr (Or.inr hmem)
      rw [this] at h6
      exact absurd h6 (by simp)
    have hV0n : V0 (p.1 + dl.1, p.2 + dl.2) = false := by
      cases hb : V0 (p.1 + dl.1, p.2 + dl.2) with
      | false => rfl
      | true =>
        have := (hiff _).mpr (Or.inl hb)
        rw [this] at h6
        exact absurd h6 (by simp)
    have hmind : MinDist g s (p.1 + dl.1, p.2 + dl.2) (d + 1) := by
      refine ⟨ReachIn.step hpd.1 ⟨dl, hdl, rfl⟩ hopen, ?_⟩
      intro m hm
      by_contra hlt
      push_neg at hlt
      obtain ⟨m0, hm0⟩ := exists_minDist ⟨m, hm⟩
      have hm0d : m0 ≤ d := by
        have := hm0.2 m hm
        omega
      have := hA6 _ m0 hm0 hm0d
      rw [this] at hV0n
      exact absurd hV0n (by simp)
    refine ⟨⟨new ++ [(p.1 + dl.1, p.2 + dl.2)], ?_, ?_, ?_, ?_, ?_⟩, ?_, ?_⟩
    · show st.queue ++ [((p.1 + dl.1, p.2 + dl.2), d + 1)] = _
      rw [hq, List.map_append, List.append_assoc]
      rfl
    · refine List.Nodup.append hnd (List.nodup_singleton _) ?_
      intro a ha hb
      rw [List.mem_singleton] at hb
      subst hb
      exact hnotnew ha
    · intro x hx
      rcases List.mem_append.mp hx with hx1 | hx2
      · exact hprops x hx1
      · rw [List.mem_singleton] at hx2
        subst hx2
        exact ⟨hopen, ⟨dl, hdl, rfl⟩, hmind, hV0n⟩
    · intro z
      show (if z = (p.1 + dl.1, p.2 + dl.2) then true else st.vis z) = true ↔ _
      by_cases hz : z = (p.1 + dl.1, p.2 + dl.2)
      · subst hz
        simp
      · rw [if_neg hz, hiff z]
        simp [List.mem_append, hz]
    · show visCount g (fun z => if z = (p.1 + dl.1, p.2 + dl.2) then true
          else st.vis z) = _
      rw [visCount_update g hopen.1 (by
        cases hb : st.vis (p.1 + dl.1, p.2 + dl.2) with
        | false => rfl
        | true => rw [hb] at h6; exact absurd h6 (by simp)), hcnt,
        List.length_append]
      simp
      omega
    · intro z hzv
      show (if z = (p.1 + dl.1, p.2 + dl.2) then true else st.vis z) = true
      by_cases hz : z = (p.1 + dl.1, p.2 + dl.2)
      · simp [hz]
      · rw [if_neg hz]
        exact hzv
    · intro _
      show (if (p.1 + dl.1, p.2 + dl.2) = (p.1 + dl.1, p.2 + dl.2) then true
        else _) = true
      simp
  · rename_i hc
    refine ⟨⟨new, hq, hnd, hprops, hiff, hcnt⟩, fun z h => h, ?_⟩
    intro hopen
    cases hb : st.vis (p.1 + dl.1, p.2 + dl.2) with
    | true => rfl
    | false =>
      exact absurd ⟨hopen.1.1, hopen.1.2.1, hopen.1.2.2.1, hopen.1.2.2.2,
        hopen.2, hb⟩ hc

lemma relaxFold_mid (g : Grid) (s p : Pos) (d : Nat) (rest : List (Pos × Nat))
    (V0 : Pos → Bool) (hpd : MinDist g s p d)
    (hA6 : ∀ z m, MinDist g s z m → m ≤ d → V0 z = true) :
    ∀ (ds : List (Int × Int)), (∀ x ∈ ds, x ∈ actionDeltas) →
    ∀ st, BfsMid g s p d rest V0 st →
    BfsMid g s p d rest V0 (ds.foldl (bfsRelax g p d) st) ∧
    (∀ z, st.vis z = true → (ds.foldl (bfsRelax g p d) st).vis z = true) ∧
    (∀ dl ∈ ds, isOpenCell g (p.1 + dl.1, p.2 + dl.2) →
      (ds.foldl (bfsRelax g p d) st).vis (p.1 + dl.1, p.2 + dl.2) = true) := by
  intro ds
  induction ds with
  | nil =>
    intro _ st hmid
    exact ⟨hmid, fun z h => h, by simp⟩
  | cons dl ds ih =>
    intro hsub st hmid
    have hds : ∀ x ∈ ds, x ∈ actionDeltas := fun x hx =>
      hsub x (List.mem_cons_of_mem _ hx)
    have hstep := bfsRelax_step g s p d rest V0 hpd hA6 st hmid dl
      (hsub dl (List.mem_cons_self _ _))
    have hrec := ih hds (bfsRelax g p d st dl) hstep.1
    rw [List.foldl_cons]
    refine ⟨hrec.1, ?_, ?_⟩
    · intro z hz
      exact hrec.2.1 z (hstep.2.1 z hz)
    · intro dl2 hdl2 hopen
      rcases List.mem_cons.mp hdl2 with heq | hmem
      · subst heq
        exact hrec.2.1 _ (hstep.2.2 hopen)
      · exact hrec.2.2 dl2 hmem hopen

lemma bfs_expand_inv (g : Grid) (s p : Pos) (d : Nat)
    (rest : List (Pos × Nat)) (vis : Pos → Bool) (par : Pos → Pos)
    (hinv : BfsInv g s ((p, d) :: rest) vis) (st : BfsSt)
    (hst : st = actionDeltas.foldl (bfsRelax g p d) ⟨rest, vis, par⟩) :
    BfsInv g s st.queue st.vis ∧ BfsMid g s p d rest vis st := by
  have hpd : MinDist g s p d := (hinv.mem (p, d) (List.mem_cons_self _ _)).2.1
  have hA6 : ∀ z m, MinDist g s z m → m ≤ d → vis z = true := fun z m hm hle =>
    hinv.frontier z m (p, d) hm rfl hle
  have hmid0 : BfsMid g s p d rest vis ⟨rest, vis, par⟩ :=
    ⟨[], by simp, by simp, by simp, by simp, by simp⟩
  have hfold := relaxFold_mid g s p d rest vis hpd hA6 actionDeltas
    (fun x hx => hx) ⟨rest, vis, par⟩ hmid0
  rw [← hst] at hfold
  obtain ⟨hmidF, hmono, hcov⟩ := hfold
  obtain ⟨new, hq, hnd, hprops, hiff, hcnt⟩ := hmidF
  have hheadvis : vis p = true := (hinv.mem (p, d) (List.mem_cons_self _ _)).1
  have hrestmem : ∀ e ∈ rest, vis e.1 = true ∧ MinDist g s e.1 e.2 ∧
      inGrid g e.1 := fun e he => hinv.mem e (List.mem_cons_of_mem _ he)
  have hhd_le : ∀ e ∈ rest, d ≤ e.2 := by
    have := (List.pairwise_cons.mp hinv.sorted).1
    exact fun e he => this e he
  have hrest_sorted : rest.Pairwise (fun a b => a.2 ≤ b.2) :=
    (List.pairwise_cons.mp hinv.sorted).2
  have hub : ∀ e ∈ rest, e.2 ≤ d + 1 := fun e he =>
    hinv.spread e (List.mem_cons_of_mem _ he) (p, d) (List.mem_cons_self _ _)
  have hp_notin : p ∉ rest.map Prod.fst := by
    have := hinv.nodupQ
    rw [List.map_cons, List.nodup_cons] at this
    exact this.1
  have hrest_nodup : (rest.map Prod.fst).Nodup := by
    have := hinv.nodupQ
    rw [List.map_cons, List.nodup_cons] at this
    exact this.2
  have hnewfst : (new.map (fun n => (n, d + 1))).map Prod.fst = new := by
    rw [List.map_map]
    exact List.map_id _
  have bnds : ∀ x ∈ rest ++ new.map (fun n => (n, d + 1)),
      d ≤ x.2 ∧ x.2 ≤ d + 1 := by
    intro x hx
    rcases List.mem_append.mp hx with hx1 | hx2
    · exact ⟨hhd_le x hx1, hub x hx1⟩
    · obtain ⟨n, _, rfl⟩ := List.mem_map.mp hx2
      exact ⟨Nat.le_succ d, le_rfl⟩
  refine ⟨⟨?_, ?_, ?_, ?_, ?_, ?_, ?_⟩, ⟨new, hq, hnd, hprops, hiff, hcnt⟩⟩
  · exact (hiff s).mpr (Or.inl hinv.startVis)
  · intro e he
    rw [hq] at he
    rcases List.mem_append.mp he with he1 | he2
    · obtain ⟨hv, hm, hin⟩ := hrestmem e he1
      exact ⟨(hiff e.1).mpr (Or.inl hv), hm, hin⟩
    · obtain ⟨n, hn, rfl⟩ := List.mem_map.mp he2
      obtain ⟨hopen, _, hmind, _⟩ := hprops n hn
      exact ⟨(hiff n).mpr (Or.inr hn), hmind, hopen.1⟩
  · rw [hq, List.pairwise_append]
    refine ⟨hrest_sorted, ?_, ?_⟩
    · rw [List.pairwise_map]
      exact hnd.imp fun _ => le_rfl
    · intro a ha b hb
      obtain ⟨n, _, rfl⟩ := List.mem_map.mp hb
      exact hub a ha
  · intro a ha b hb
    rw [hq] at ha hb
    have h1 := bnds a ha
    have h2 := bnds b hb
    omega
  · rw [hq, List.map_append, hnewfst]
    refine List.Nodup.append hrest_nodup hnd ?_
    intro z hz1 hz2
    obtain ⟨e, he, rfl⟩ := List.mem_map.mp hz1
    have hv := (hrestmem e he).1
    have hv0 := (hprops e.1 hz2).2.2.2
    rw [hv] at hv0
    exact absurd hv0 (by simp)
  · intro z hz hznot q hadj hqopen
    rcases (hiff z).mp hz with hz0 | hzn
    · by_cases hzp : z = p
      · subst hzp
        obtain ⟨dl, hdl, rfl⟩ := hadj
        exact hcov dl hdl hqopen
      · have hz_nr : z ∉ rest.map Prod.fst := by
          intro hmem
          apply hznot
          rw [hq, List.map_append]
          exact List.mem_append_left _ hmem
        have hz_old : z ∉ ((p, d) :: rest).map Prod.fst := by
          simp only [List.map_cons, List.mem_cons]
          rintro (h | h)
          · exact hzp h
          · exact hz_nr h
        exact (hiff q).mpr (Or.inl (hinv.closed z hz0 hz_old q hadj hqopen))
    · exfalso
      apply hznot
      rw [hq, List.map_append, hnewfst]
      exact List.mem_append_right _ hzn
  · intro z m pd2 hm hhead hle
    have hpdmem : pd2 ∈ st.queue := List.mem_of_mem_head? hhead
    rw [hq] at hpdmem
    have hpdb := bnds pd2 hpdmem
    by_cases hmd : m ≤ d
    · exact (hiff z).mpr (Or.inl (hA6 z m hm hmd))
    · have hm_eq : m = d + 1 := by omega
      subst hm_eq
      obtain ⟨y, hy, hyadj, hzopen⟩ := minDist_pred hm
      have hyvis : vis y = true := hA6 y d hy le_rfl
      by_cases hyp : y = p
      · subst hyp
        obtain ⟨dl, hdl, rfl⟩ := hyadj
        exact (hiff _).mpr (Or.inl hyvis) |>.symm ▸ hcov dl hdl hzopen
      · have hynr : y ∉ rest.map Prod.fst := by
          intro hmem
          obtain ⟨e, he, heq⟩ := List.mem_map.mp hmem
          have hed : e.2 = d := minDist_unique (heq ▸ (hrestmem e he).2.1) hy
          cases hrest : rest with
          | nil =>
            rw [hrest] at he
            exact absurd he (List.not_mem_nil e)
          | cons e0 rest2 =>
            have hqcons : st.queue = e0 :: (rest2 ++
                new.map (fun n => (n, d + 1))) := by
              rw [hq, hrest]
              rfl
            have hpd2e : pd2 = e0 := by
              rw [hqcons] at hhead
              exact (Option.some.inj hhead).symm
            have he02 : e0.2 = d + 1 := by
              have h1 : pd2.2 = e0.2 := congrArg Prod.snd hpd2e
              have h2 : pd2.2 ≤ d + 1 := hpdb.2
              omega
            rw [hrest] at he
            rcases List.mem_cons.mp he with heq0 | he2
            · rw [heq0] at hed
              omega
            · have := (List.pairwise_cons.mp (hrest ▸ hrest_sorted)).1 e he2
              omega
        have hy_old : y ∉ ((p, d) :: rest).map Prod.fst := by
          simp only [List.map_cons, List.mem_cons]
          rintro (h | h)
          · exact hyp h
          · exact hynr h
        exact (hiff z).mpr (Or.inl (hinv.closed y hyvis hy_old z hyadj hzopen))

lemma reach_visited_of_empty {g : Grid} {s : Pos} {vis : Pos → Bool}
    (hinv : BfsInv g s [] vis) :
    ∀ z n, ReachIn g s z n → vis z = true := by
  intro z n h
  induction h with
  | refl => exact hinv.startVis
  | step h1 h2 h3 ih => exact hinv.closed _ ih (by simp) _ h2 h3

lemma bfsAux_correct (g : Grid) (s t : Pos) :
    ∀ (fuel : Nat) (Q : List (Pos × Nat)) (vis : Pos → Bool) (par : Pos → Pos),
    BfsInv g s Q vis →
    Q.length + (gridH g * gridW g - visCount g vis) < fuel →
    (vis t = true → t ∈ Q.map Prod.fst) →
    (∀ dd pth, bfsAux g t fuel Q vis par = some (dd, pth) → MinDist g s t dd) ∧
    (bfsAux g t fuel Q vis par = none → ¬ ∃ n, ReachIn g s t n) := by
  intro fuel
  induction fuel with
  | zero =>
    intro Q vis par _ hfuel _
    exact absurd hfuel (Nat.not_lt_zero _)
  | succ f ih =>
    intro Q vis par hinv hfuel hgoal
    cases Q with
    | nil =>
      constructor
      · intro dd pth h
        rw [show bfsAux g t (f + 1) [] vis par = none from rfl] at h
        exact Option.noConfusion h
      · intro _ hex
        obtain ⟨n, hr⟩ := hex
        have hv := reach_visited_of_empty hinv t n hr
        have := hgoal hv
        simp at this
    | cons pd rest =>
      obtain ⟨p, d⟩ := pd
      by_cases hpt : p = t
      · subst hpt
        constructor
        · intro dd pth h
          rw [bfsAux, if_pos rfl] at h
          have hdd : d = dd := congrArg Prod.fst (Option.some.inj h)
          exact hdd ▸ (hinv.mem (p, d) (List.mem_cons_self _ _)).2.1
        · intro h
          rw [bfsAux, if_pos rfl] at h
          exact Option.noConfusion h
      · obtain ⟨hinv2, hmid2⟩ := bfs_expand_inv g s p d rest vis par hinv _ rfl
        obtain ⟨new, hq, hnd, hprops, hiff, hcnt⟩ := hmid2
        have hnewfst : (new.map (fun n => (n, d + 1))).map Prod.fst = new := by
          rw [List.map_map]
          exact List.map_id _
        have heq : bfsAux g t (f + 1) ((p, d) :: rest) vis par =
            bfsAux g t f
              (actionDeltas.foldl (bfsRelax g p d) ⟨rest, vis, par⟩).queue
              (actionDeltas.foldl (bfsRelax g p d) ⟨rest, vis, par⟩).vis
              (actionDeltas.foldl (bfsRelax g p d) ⟨rest, vis, par⟩).par := by
          rw [bfsAux, if_neg hpt]
        have hlen : (actionDeltas.foldl (bfsRelax g p d)
            ⟨rest, vis, par⟩).queue.length = rest.length + new.length := by
          rw [hq]
          simp
        have hvcle := visCount_le g
          (actionDeltas.foldl (bfsRelax g p d) ⟨rest, vis, par⟩).vis
        rw [hcnt] at hvcle
        have hfuel2 : (actionDeltas.foldl (bfsRelax g p d)
              ⟨rest, vis, par⟩).queue.length +
            (gridH g * gridW g - visCount g (actionDeltas.foldl (bfsRelax g p d)
              ⟨rest, vis, par⟩).vis) < f := by
          rw [hlen, hcnt]
          simp only [List.length_cons] at hfuel
          omega
        have hgoal2 : (actionDeltas.foldl (bfsRelax g p d)
              ⟨rest, vis, par⟩).vis t = true →
            t ∈ (actionDeltas.foldl (bfsRelax g p d)
              ⟨rest, vis, par⟩).queue.map Prod.fst := by
          intro hv
          rcases (hiff t).mp hv with h0 | hn
          · have hmem := hgoal h0
            rw [List.map_cons] at hmem
            rcases List.mem_cons.mp hmem with heq2 | hmem2
            · exact absurd heq2.symm hpt
            · rw [hq, List.map_append]
              exact List.mem_append_left _ hmem2
          · rw [hq, List.map_append, hnewfst]
            exact List.mem_append_right _ hn
        have hres := ih (actionDeltas.foldl (bfsRelax g p d) ⟨rest, vis, par⟩).queue
          (actionDeltas.foldl (bfsRelax g p d) ⟨rest, vis, par⟩).vis
          (actionDeltas.foldl (bfsRelax g p d) ⟨rest, vis, par⟩).par
          hinv2 hfuel2 hgoal2
        rw [heq]
        exact hres

/-- C6 (confirmed): for every grid and in-bounds start, when
`bfsShortestPath` returns a result its distance is the minimum hop count of
any route through path cells (a characterization independent of the fixed
up, down, left, right visitation order), and it returns the no-path sentinel
exactly when the goal is unreachable; on the 5x5 ring-corridor fixture the
distance from (1, 1) to (3, 3) is 4. -/
theorem bfs_shortest_correct :
    (∀ (g : Grid) (s t : Pos), inGrid g s →
      (∀ dd pth, bfsShortestPath g s t = some (dd, pth) →
        ReachIn g s t dd ∧ ∀ n, ReachIn g s t n → dd ≤ n) ∧
      (bfsShortestPath g s t = none ↔ ¬ ∃ n, ReachIn g s t n)) ∧
    bfsShortestPath fixtureMaze (1, 1) (3, 3) =
      some (4, [(1, 1), (2, 1), (3, 1), (3, 2), (3, 3)]) := by
  constructor
  · intro g s t hs
    have hH : 0 < gridH g := by
      obtain ⟨h1, h2, _, _⟩ := hs
      exact_mod_cast lt_of_le_of_lt h1 h2
    have hW : 0 < gridW g := by
      obtain ⟨_, _, h3, h4⟩ := hs
      exact_mod_cast lt_of_le_of_lt h3 h4
    have hinv0 : BfsInv g s [(s, 0)] (fun z => z == s) := by
      refine ⟨?_, ?_, ?_, ?_, ?_, ?_, ?_⟩
      · simp
      · intro e he
        rw [List.mem_singleton] at he
        subst he
        exact ⟨by simp, ⟨ReachIn.refl, fun n _ => Nat.zero_le n⟩, hs⟩
      · simp
      · intro a ha b hb
        rw [List.mem_singleton] at ha hb
        subst ha
        subst hb
        omega
      · simp
      · intro q hq hqnot
        exfalso
        apply hqnot
        rw [beq_iff_eq] at hq
        subst hq
        simp
      · intro z m pd2 hm hhead hle
        have hpd2 : pd2 = (s, 0) := Option.some.inj hhead.symm
        have hm0 : m = 0 := by
          have : pd2.2 = 0 := by rw [hpd2]
          omega
        subst hm0
        have := reachIn_zero_inv hm.1
        subst this
        simp
    have hfuel0 : [(s, 0)].length +
        (gridH g * gridW g - visCount g (fun z => z == s)) <
        gridH g * gridW g + 1 := by
      rw [visCount_init g hs]
      have := Nat.mul_pos hH hW
      simp only [List.length_singleton]
      omega
    have hgoal0 : (fun z => z == s) t = true → t ∈ [(s, 0)].map Prod.fst := by
      intro h
      rw [beq_iff_eq] at h
      subst h
      simp
    have hmain := bfsAux_correct g s t (gridH g * gridW g + 1) [(s, 0)]
      (fun z => z == s) (fun _ => (-1, -1)) hinv0 hfuel0 hgoal0
    refine ⟨?_, ?_, ?_⟩
    · intro dd pth h
      exact hmain.1 dd pth h
    · exact hmain.2
    · intro hnr
      cases hres : bfsShortestPath g s t with
      | none => rfl
      | some v =>
        obtain ⟨dd, pth⟩ := v
        exact absurd ⟨dd, (hmain.1 dd pth hres).1⟩ hnr
  · decide

/-- C6 witness: the general characterization applied at the fixture maze. -/
theorem bfs_shortest_correct_witness :
    (∀ dd pth, bfsShortestPath fixtureMaze (1, 1) (3, 3) = some (dd, pth) →
      ReachIn fixtureMaze (1, 1) (3, 3) dd ∧
        ∀ n, ReachIn fixtureMaze (1, 1) (3, 3) n → dd ≤ n) ∧
    (bfsShortestPath fixtureMaze (1, 1) (3, 3) = none ↔
      ¬ ∃ n, ReachIn fixtureMaze (1, 1) (3, 3) n) :=
  bfs_shortest_correct.1 fixtureMaze (1, 1) (3, 3) (by decide)

end MaxrlDemo
